import Mathlib

/-!
# Verification of the table-question-answering service core

Shallow embedding of the Go program `final-project-golang-ai-v4/main.go`:
its CSV-to-table conversion (`CsvToSlice`), its remote-model connector
(`ConnectAIModel`), and the credential check of the `/ask` handler.

Modelling conventions:
* Go's `map[string][]string` is modelled as an association list with
  first-insertion key order and unique keys (`Table`); `getKey`/`setKey`
  mirror Go map read (missing key yields the zero value, a nil slice)
  and write.
* Go's `encoding/csv` reader is modelled at the record level: the input
  is the list of records (each a list of fields) the lexer would deliver;
  `readAll` models `csv.Reader.ReadAll` with the default
  `FieldsPerRecord = 0` policy, which errors on any record whose field
  count differs from that of the first record (`csv.ErrFieldCount`; the
  line number carried by the Go error is abstracted away).
  `TrimLeadingSpace` and quote handling act below the record level and
  are absorbed into the abstraction.
* JSON documents are modelled structurally by the inductive `Json`;
  an HTTP response body is `Option Json`, `none` standing for bytes that
  cannot be read or are not syntactically valid JSON (both Go paths
  return the zero `Response` plus a non-nil error).
* Machine `int` JSON numbers are modelled as `Int`.
-/

namespace GolangAI

/-- Go `map[string][]string`, as an association list with unique keys in
first-insertion order. Go exposes no iteration order on a map; the list
order here is bookkeeping only (observable order is `marshalKeyOrder`). -/
abbrev Table := List (String × List String)

/-- Go map read `m[k]` for a `map[string][]string`: a missing key yields
the zero value, the nil slice (`[]`). -/
def getKey : Table → String → List String
  | [], _ => []
  | (k', v) :: t, k => if k' = k then v else getKey t k

/-- Go map write `m[k] = v`: replaces the value at an existing key,
otherwise inserts the key. -/
def setKey : Table → String → List String → Table
  | [], k, v => [(k, v)]
  | (k', v') :: t, k, v =>
    if k' = k then (k, v) :: t else (k', v') :: setKey t k v

/-- The keys of the modelled map, in first-insertion order. -/
def tableKeys (t : Table) : List String := t.map Prod.fst

/-- Modelled from Go `encoding/csv`: with the default `FieldsPerRecord = 0`,
after the first record sets the expected field count `n`, every following
record whose length differs from `n` makes `ReadAll` fail with
`csv.ErrFieldCount` ("wrong number of fields"; line number abstracted). -/
def checkFields (n : Nat) : List (List String) → Except String (List (List String))
  | [] => .ok []
  | r :: rs =>
    if r.length = n then (checkFields n rs).map (fun out => r :: out)
    else .error "record on line: wrong number of fields"

/-- Modelled from Go `encoding/csv`: `csv.Reader.ReadAll` at record level.
The first record fixes the expected field count for all later records. -/
def readAll : List (List String) → Except String (List (List String))
  | [] => .ok []
  | r :: rs => (checkFields r.length rs).map (fun out => r :: out)

/-- The header-initialisation loop of `CsvToSlice`
(`for _, header := range headers { result[header] = []string{} }`). -/
def initHeaders (headers : List String) : Table :=
  headers.foldl (fun acc h => setKey acc h []) []

/-- The inner loop of `CsvToSlice`
(`for i, value := range row { result[headers[i]] = append(result[headers[i]], value) }`).
The pairing of `headers[i]` with `row[i]` is presented as a zip; rows are
only ever passed with `row.length = headers.length` (enforced by `readAll`),
where the zip is exactly the Go loop. -/
def fillRow (acc : Table) (pairs : List (String × String)) : Table :=
  pairs.foldl (fun acc p => setKey acc p.1 (getKey acc p.1 ++ [p.2])) acc

/-- `CsvToSlice` from `main.go` lines 35–61: parse all records, require at
least two (header plus one data row), initialise one empty column per
header name, then append each row's fields positionally. -/
def CsvToSlice (rows : List (List String)) : Except String Table :=
  match readAll rows with
  | .error e => .error e
  | .ok [] => .error "CSV file must contain at least one row of data"
  | .ok [_] => .error "CSV file must contain at least one row of data"
  | .ok (headers :: dataRows) =>
    .ok (dataRows.foldl (fun acc row => fillRow acc (headers.zip row)) (initHeaders headers))

/-- Bytewise-lexicographic comparison on character lists, by code point. -/
def strLeB : List Char → List Char → Bool
  | [], _ => true
  | _ :: _, [] => false
  | a :: as, b :: bs =>
    if a.val < b.val then true
    else if b.val < a.val then false
    else strLeB as bs

/-- Go's `<=` on strings (bytewise lexicographic; on the data handled
here — ASCII column names — code-point order and byte order coincide). -/
def strLe (a b : String) : Bool := strLeB a.data b.data

/-- Insertion of a string into an ascending sorted list; helper for the
model of Go JSON map-key ordering. -/
def insertSorted (x : String) : List String → List String
  | [] => [x]
  | y :: ys => if strLe x y then x :: y :: ys else y :: insertSorted x ys

/-- Modelled from Go `encoding/json`: `Marshal` on a map serializes the
keys in ascending lexicographic order. -/
def sortStrings (l : List String) : List String := l.foldr insertSorted []

/-- The only observable column order of a `Table`: the order in which
`encoding/json` serializes the map's keys. Go maps expose no iteration
order of their own. -/
def marshalKeyOrder (t : Table) : List String := sortStrings (tableKeys t)

/-- A JSON document, modelled structurally; numbers as `Int`, matching the
`int` coordinates of the wire contract. -/
inductive Json where
  | null
  | bool (b : Bool)
  | num (n : Int)
  | str (s : String)
  | arr (elems : List Json)
  | obj (fields : List (String × Json))
deriving Repr

/-- Modelled from Go `encoding/json`: marshalling a `map[string][]string`
yields an object whose keys appear in sorted order. -/
def marshalTable (t : Table) : Json :=
  .obj ((marshalKeyOrder t).map (fun k => (k, .arr ((getKey t k).map Json.str))))

/-- The `Inputs` struct (`main.go` lines 23–26). -/
structure Inputs where
  Table : Table
  Query : String

/-- Modelled from Go `encoding/json`: marshalling `Inputs` emits its fields
in declaration order under their json tags `table` and `query`. -/
def marshalInputs (p : Inputs) : Json :=
  .obj [("table", marshalTable p.Table), ("query", .str p.Query)]

/-- The `Response` struct (`main.go` lines 28–33). -/
structure Response where
  Answer : String
  Coordinates : List (List Int)
  Cells : List String
  Aggregator : String
deriving Repr, DecidableEq

/-- Go's zero value `Response{}`. -/
def zeroResponse : Response := ⟨"", [], [], ""⟩

/-- Modelled from Go `encoding/json`: decoding a JSON value into a `string`
destination (`null` leaves the zero value in place). -/
def decodeString : Json → Except String String
  | .str s => .ok s
  | .null => .ok ""
  | _ => .error "json: cannot unmarshal value into string destination"

/-- Modelled from Go `encoding/json`: decoding a JSON value into an `int`
destination. -/
def decodeInt : Json → Except String Int
  | .num n => .ok n
  | .null => .ok 0
  | _ => .error "json: cannot unmarshal value into int destination"

/-- Modelled from Go `encoding/json`: decoding into `[]int`
(`null` decodes to the nil slice). -/
def decodeIntList : Json → Except String (List Int)
  | .arr xs => xs.mapM decodeInt
  | .null => .ok []
  | _ => .error "json: cannot unmarshal value into int-slice destination"

/-- Modelled from Go `encoding/json`: decoding into `[][]int`. -/
def decodeCoordinates : Json → Except String (List (List Int))
  | .arr xs => xs.mapM decodeIntList
  | .null => .ok []
  | _ => .error "json: cannot unmarshal value into coordinate destination"

/-- Modelled from Go `encoding/json`: decoding into `[]string`. -/
def decodeStringList : Json → Except String (List String)
  | .arr xs => xs.mapM decodeString
  | .null => .ok []
  | _ => .error "json: cannot unmarshal value into string-slice destination"

/-- One JSON object field applied to the value built so far. Go matches
object keys against the struct's json tags (`answer`, `coordinates`,
`cells`, `aggregator`; the exact-case tag match is modelled, the extra
case-insensitive fallback is not exercised by this program's provider)
and ignores unknown keys. -/
def applyField (r : Response) (kv : String × Json) : Except String Response :=
  if kv.1 = "answer" then
    (decodeString kv.2).map (fun s => { r with Answer := s })
  else if kv.1 = "coordinates" then
    (decodeCoordinates kv.2).map (fun c => { r with Coordinates := c })
  else if kv.1 = "cells" then
    (decodeStringList kv.2).map (fun c => { r with Cells := c })
  else if kv.1 = "aggregator" then
    (decodeString kv.2).map (fun s => { r with Aggregator := s })
  else .ok r

/-- Modelled from Go `encoding/json`: `Decode` into a `Response` value.
`none` stands for a body that cannot be read or is not valid JSON; a
non-object, non-null document cannot unmarshal into a struct; object
fields are applied left to right over the zero value, so absent fields
keep their zero values. -/
def decodeResponse : Option Json → Except String Response
  | none => .error "invalid JSON in response body"
  | some (.obj fields) => fields.foldlM applyField zeroResponse
  | some .null => .ok zeroResponse
  | some _ => .error "json: cannot unmarshal value into Response"

/-- The parts of Go's `http.Request` that `ConnectAIModel` sets. The body
holds the marshalled JSON document. -/
structure HttpRequest where
  method : String
  url : String
  headers : List (String × String)
  body : Json

/-- The parts of Go's `http.Response` that `ConnectAIModel` reads:
`StatusCode`, `Status` (the status line text), and the body, abstracted
to `Option Json` (`none`: unreadable bytes or invalid JSON). -/
structure HttpResponse where
  statusCode : Nat
  status : String
  body : Option Json

/-- Go `http.Header.Set`: replaces any existing value for the key,
otherwise appends the header. -/
def headerSet : List (String × String) → String → String → List (String × String)
  | [], k, v => [(k, v)]
  | (k', v') :: hs, k, v =>
    if k' = k then (k, v) :: hs else (k', v') :: headerSet hs k v

/-- Go `http.NewRequest`: a fresh request with no headers yet. -/
def newRequest (method url : String) (body : Json) : HttpRequest :=
  { method := method, url := url, headers := [], body := body }

/-- The request `ConnectAIModel` builds (`main.go` lines 64–76): marshal
the payload, create a POST request to the fixed inference URL, then set
the `Authorization` (`fmt.Sprintf("Bearer %s", token)`) and
`Content-Type` headers. -/
def ConnectAIModelRequest (payload : Inputs) (token : String) : HttpRequest :=
  let url := "https://api-inference.huggingface.co/models/google/tapas-base-finetuned-wtq"
  let payloadBytes := marshalInputs payload
  let req := newRequest "POST" url payloadBytes
  let req := { req with headers := headerSet req.headers "Authorization" ("Bearer " ++ token) }
  { req with headers := headerSet req.headers "Content-Type" "application/json" }

/-- `ConnectAIModel` (`main.go` lines 63–100), the transport
(`c.Client.Do`) passed as a function. `json.Marshal` cannot fail on
`Inputs` and `http.NewRequest` cannot fail on this fixed method and URL,
so those two early-return paths are vacuous and the request construction
is total (`ConnectAIModelRequest`). The result is the Go pair
`(Response, error)` with `none` as the nil error: a transport failure
returns its error; a non-200 status returns the formatted status error
without touching the body; otherwise the decoded body or its decode
error is returned. -/
def ConnectAIModel (doRequest : HttpRequest → Except String HttpResponse)
    (payload : Inputs) (token : String) : Response × Option String :=
  match doRequest (ConnectAIModelRequest payload token) with
  | .error e => (zeroResponse, some e)
  | .ok resp =>
    if resp.statusCode ≠ 200 then
      (zeroResponse,
        some ("failed to get valid response: " ++ toString resp.statusCode ++ " " ++ resp.status))
    else
      match decodeResponse resp.body with
      | .error e => (zeroResponse, some e)
      | .ok r => (r, none)

/-- The credential check and model call of the `/ask` handler
(`main.go` lines 160–171): an empty `HUGGINGFACE_TOKEN` answers with an
error before `ConnectAIModel` (and with it the transport) is ever
invoked; otherwise the connector's outcome is propagated. -/
def askCredentialStep (doRequest : HttpRequest → Except String HttpResponse)
    (payload : Inputs) (token : String) : Except String Response :=
  if token = "" then
    .error "HUGGINGFACE_TOKEN is not set in the environment"
  else
    match ConnectAIModel doRequest payload token with
    | (r, none) => .ok r
    | (_, some e) => .error ("Error connecting to AI model: " ++ e)

/-! ## Association-list lemmas -/

theorem getKey_setKey_self (t : Table) (k : String) (v : List String) :
    getKey (setKey t k v) k = v := by
  induction t with
  | nil => simp [setKey, getKey]
  | cons p t ih =>
    by_cases h : p.1 = k
    · simp [setKey, getKey, h]
    · simp [setKey, getKey, h, ih]

theorem getKey_setKey_ne (t : Table) (k k' : String) (v : List String)
    (h : k ≠ k') : getKey (setKey t k v) k' = getKey t k' := by
  induction t with
  | nil => simp [setKey, getKey, h]
  | cons p t ih =>
    by_cases hp : p.1 = k
    · simp [setKey, getKey, hp, h]
    · simp [setKey, getKey, hp, ih]

theorem tableKeys_cons (p : String × List String) (t : Table) :
    tableKeys (p :: t) = p.1 :: tableKeys t := rfl

theorem tableKeys_setKey_mem (t : Table) (k : String) (v : List String)
    (h : k ∈ tableKeys t) : tableKeys (setKey t k v) = tableKeys t := by
  induction t with
  | nil => simp [tableKeys] at h
  | cons p t ih =>
    obtain ⟨k', v'⟩ := p
    rw [tableKeys_cons] at h
    by_cases hp : k' = k
    · simp [setKey, hp, tableKeys_cons]
    · have hk : k ∈ tableKeys t := by
        rcases List.mem_cons.mp h with h | h
        · exact absurd h.symm hp
        · exact h
      simp only [setKey, hp, if_false, tableKeys_cons, List.cons.injEq, true_and]
      exact ih hk

theorem tableKeys_setKey_not_mem (t : Table) (k : String) (v : List String)
    (h : k ∉ tableKeys t) : tableKeys (setKey t k v) = tableKeys t ++ [k] := by
  induction t with
  | nil => simp [setKey, tableKeys]
  | cons p t ih =>
    obtain ⟨k', v'⟩ := p
    rw [tableKeys_cons] at h
    have hp : k' ≠ k := fun hk => h (by simp [hk])
    have ht : k ∉ tableKeys t := fun hk => h (by simp [hk])
    simp only [setKey, hp, if_false, tableKeys_cons, List.cons_append,
      List.cons.injEq, true_and]
    exact ih ht

theorem mem_tableKeys_setKey (t : Table) (k : String) (v : List String) :
    k ∈ tableKeys (setKey t k v) := by
  by_cases h : k ∈ tableKeys t
  · rw [tableKeys_setKey_mem t k v h]; exact h
  · rw [tableKeys_setKey_not_mem t k v h]; simp

theorem mem_tableKeys_setKey_of_mem (t : Table) (k k' : String) (v : List String)
    (h : k ∈ tableKeys t) : k ∈ tableKeys (setKey t k' v) := by
  by_cases h' : k' ∈ tableKeys t
  · rwa [tableKeys_setKey_mem t k' v h']
  · rw [tableKeys_setKey_not_mem t k' v h']; exact List.mem_append_left _ h

theorem nodup_tableKeys_setKey (t : Table) (k : String) (v : List String)
    (h : (tableKeys t).Nodup) : (tableKeys (setKey t k v)).Nodup := by
  by_cases hk : k ∈ tableKeys t
  · rwa [tableKeys_setKey_mem t k v hk]
  · rw [tableKeys_setKey_not_mem t k v hk]
    exact List.nodup_append.mpr ⟨h, List.nodup_singleton k, by
      intro a ha hb; simp at hb; exact hk (hb ▸ ha)⟩

/-! ## Lemmas about the header-initialisation loop -/

theorem init_foldl_getKey (headers : List String) (t : Table) (k : String) :
    getKey (headers.foldl (fun acc h => setKey acc h []) t) k =
      if k ∈ headers then [] else getKey t k := by
  induction headers generalizing t with
  | nil => simp
  | cons h hs ih =>
    rw [List.foldl_cons, ih]
    by_cases hk : k ∈ hs
    · simp [hk]
    · by_cases hh : h = k
      · simp [hk, hh, getKey_setKey_self]
      · have hne : ¬ k ∈ h :: hs := by
          simp only [List.mem_cons]
          rintro (e | e)
          · exact hh e.symm
          · exact hk e
        simp [hk, hne, getKey_setKey_ne t h k [] hh]

theorem initHeaders_getKey (headers : List String) (k : String) (h : k ∈ headers) :
    getKey (initHeaders headers) k = [] := by
  rw [initHeaders, init_foldl_getKey]; simp [h]

theorem init_foldl_tableKeys_nodup (headers : List String) (t : Table)
    (h : (tableKeys t).Nodup) :
    (tableKeys (headers.foldl (fun acc h => setKey acc h []) t)).Nodup := by
  induction headers generalizing t with
  | nil => simpa
  | cons hd hs ih => exact ih _ (nodup_tableKeys_setKey t hd [] h)

theorem initHeaders_tableKeys_nodup (headers : List String) :
    (tableKeys (initHeaders headers)).Nodup :=
  init_foldl_tableKeys_nodup headers [] (by simp [tableKeys])

theorem init_foldl_mem_tableKeys (headers : List String) (t : Table) (k : String)
    (h : k ∈ headers ∨ k ∈ tableKeys t) :
    k ∈ tableKeys (headers.foldl (fun acc h => setKey acc h []) t) := by
  induction headers generalizing t with
  | nil => simpa using h
  | cons hd hs ih =>
    rw [List.foldl_cons]
    rcases h with h | h
    · rcases List.mem_cons.mp h with h | h
      · exact ih _ (Or.inr (h ▸ mem_tableKeys_setKey t k []))
      · exact ih _ (Or.inl h)
    · exact ih _ (Or.inr (mem_tableKeys_setKey_of_mem t k hd [] h))

theorem initHeaders_mem_tableKeys (headers : List String) (k : String)
    (h : k ∈ headers) : k ∈ tableKeys (initHeaders headers) :=
  init_foldl_mem_tableKeys headers [] k (Or.inl h)

theorem init_foldl_tableKeys_of_nodup (headers : List String) (t : Table)
    (hnd : headers.Nodup) (hdisj : ∀ h ∈ headers, h ∉ tableKeys t) :
    tableKeys (headers.foldl (fun acc h => setKey acc h []) t) =
      tableKeys t ++ headers := by
  induction headers generalizing t with
  | nil => simp
  | cons hd hs ih =>
    rw [List.foldl_cons]
    have hhd : hd ∉ tableKeys t := hdisj hd (by simp)
    have step := tableKeys_setKey_not_mem t hd [] hhd
    rw [ih _ (List.Nodup.of_cons hnd) ?_, step, List.append_assoc]
    · simp
    · intro h hh
      rw [step]
      simp only [List.mem_append, List.mem_singleton]
      rintro (hc | hc)
      · exact hdisj h (by simp [hh]) hc
      · exact (List.nodup_cons.mp hnd).1 (hc ▸ hh)

theorem initHeaders_tableKeys_of_nodup (headers : List String)
    (hnd : headers.Nodup) : tableKeys (initHeaders headers) = headers := by
  rw [initHeaders, init_foldl_tableKeys_of_nodup headers [] hnd (by simp [tableKeys])]
  simp [tableKeys]

/-! ## Lemmas about the row-filling loops -/

theorem fillRow_getKey (pairs : List (String × String)) (t : Table) (k : String) :
    getKey (fillRow t pairs) k =
      getKey t k ++ (pairs.filter (fun p => p.1 == k)).map Prod.snd := by
  induction pairs generalizing t with
  | nil => simp [fillRow]
  | cons p ps ih =>
    obtain ⟨a, b⟩ := p
    show getKey (fillRow (setKey t a (getKey t a ++ [b])) ps) k = _
    rw [ih]
    by_cases ha : a = k
    · subst ha
      rw [getKey_setKey_self]
      simp [List.filter_cons, List.append_assoc]
    · rw [getKey_setKey_ne t a k _ ha]
      have : ((a, b).1 == k) = false := by simpa using ha
      simp [List.filter_cons, this]

theorem fillRow_tableKeys (pairs : List (String × String)) (t : Table)
    (h : ∀ p ∈ pairs, p.1 ∈ tableKeys t) :
    tableKeys (fillRow t pairs) = tableKeys t := by
  induction pairs generalizing t with
  | nil => simp [fillRow]
  | cons p ps ih =>
    obtain ⟨a, b⟩ := p
    show tableKeys (fillRow (setKey t a (getKey t a ++ [b])) ps) = _
    have hstep := tableKeys_setKey_mem t a (getKey t a ++ [b]) (h (a, b) (by simp))
    rw [ih _ ?_, hstep]
    intro p hp
    rw [hstep]
    exact h p (by simp [hp])

theorem rows_foldl_getKey (dataRows : List (List String)) (headers : List String)
    (t : Table) (k : String) :
    getKey (dataRows.foldl (fun acc row => fillRow acc (headers.zip row)) t) k =
      getKey t k ++
        dataRows.flatMap
          (fun r => ((headers.zip r).filter (fun p => p.1 == k)).map Prod.snd) := by
  induction dataRows generalizing t with
  | nil => simp
  | cons r rs ih =>
    rw [List.foldl_cons, ih, fillRow_getKey, List.flatMap_cons, List.append_assoc]

theorem rows_foldl_tableKeys (dataRows : List (List String)) (headers : List String)
    (t : Table) (hk : ∀ h ∈ headers, h ∈ tableKeys t) :
    tableKeys (dataRows.foldl (fun acc row => fillRow acc (headers.zip row)) t) =
      tableKeys t := by
  induction dataRows generalizing t with
  | nil => simp
  | cons r rs ih =>
    rw [List.foldl_cons]
    have hstep : tableKeys (fillRow t (headers.zip r)) = tableKeys t := by
      apply fillRow_tableKeys
      intro p hp
      exact hk p.1 (List.of_mem_zip hp).1
    rw [ih _ ?_, hstep]
    intro h hh
    rw [hstep]
    exact hk h hh

/-! ## Lemmas about record reading -/

theorem checkFields_ok (n : Nat) (rs : List (List String))
    (h : ∀ r ∈ rs, r.length = n) : checkFields n rs = .ok rs := by
  induction rs with
  | nil => rfl
  | cons r rs ih =>
    rw [checkFields]
    simp only [h r (by simp), if_true, ih (fun r hr => h r (by simp [hr])), Except.map]

theorem checkFields_error (n : Nat) (rs : List (List String)) (r : List String)
    (hmem : r ∈ rs) (hlen : r.length ≠ n) :
    checkFields n rs = .error "record on line: wrong number of fields" := by
  induction rs with
  | nil => simp at hmem
  | cons r' rs ih =>
    rw [checkFields]
    by_cases h' : r'.length = n
    · have hr : r ∈ rs := by
        rcases List.mem_cons.mp hmem with he | he
        · exact absurd (he ▸ h') hlen
        · exact he
      simp [h', ih hr, Except.map]
    · simp [h']

theorem readAll_ok (headers : List String) (dataRows : List (List String))
    (h : ∀ r ∈ dataRows, r.length = headers.length) :
    readAll (headers :: dataRows) = .ok (headers :: dataRows) := by
  rw [readAll, checkFields_ok headers.length dataRows h]
  rfl

/-! ## Lemmas relating zips, filters and header positions -/

theorem filter_zip_not_mem (hs : List String) (bs : List String) (k : String)
    (h : k ∉ hs) : (hs.zip bs).filter (fun p => p.1 == k) = [] := by
  induction hs generalizing bs with
  | nil => simp
  | cons a hs ih =>
    cases bs with
    | nil => simp
    | cons b bs =>
      have ha : ((a, b).1 == k) = false := by
        simp only [beq_eq_false_iff_ne, ne_eq]
        exact fun e => h (by simp [e])
      rw [List.zip_cons_cons, List.filter_cons, ha]
      simp only [Bool.false_eq_true, if_false]
      exact ih bs (fun hm => h (by simp [hm]))

theorem filter_zip_nodup_get (hs : List String) (i : Nat) (hi : i < hs.length)
    (bs : List String) (hnd : hs.Nodup) (hlen : bs.length = hs.length) :
    ((hs.zip bs).filter (fun p => p.1 == hs.get ⟨i, hi⟩)).map Prod.snd =
      [bs.getD i ""] := by
  induction hs generalizing i bs with
  | nil => simp at hi
  | cons a hs ih =>
    cases bs with
    | nil => simp at hlen
    | cons b bs =>
      have hlen' : bs.length = hs.length := by simpa using hlen
      cases i with
      | zero =>
        have ha : ((a, b).1 == (a :: hs).get ⟨0, hi⟩) = true := by simp
        rw [List.zip_cons_cons, List.filter_cons, ha]
        simp only [if_true]
        have hnotin : (a :: hs).get ⟨0, hi⟩ ∉ hs := by
          simpa using (List.nodup_cons.mp hnd).1
        rw [filter_zip_not_mem hs bs _ hnotin]
        simp
      | succ j =>
        have hj : j < hs.length := by simpa using hi
        have hget : (a :: hs).get ⟨j + 1, hi⟩ = hs.get ⟨j, hj⟩ := rfl
        have hmem : hs.get ⟨j, hj⟩ ∈ hs := List.get_mem hs j hj
        have ha : ((a, b).1 == (a :: hs).get ⟨j + 1, hi⟩) = false := by
          simp only [hget, beq_eq_false_iff_ne, ne_eq]
          exact fun e => (List.nodup_cons.mp hnd).1 (e ▸ hmem)
        rw [List.zip_cons_cons, List.filter_cons, ha]
        simp only [Bool.false_eq_true, if_false, hget]
        rw [ih j hj bs (List.Nodup.of_cons hnd) hlen']
        rfl

theorem filter_zip_count (hs : List String) (bs : List String) (k : String)
    (hlen : bs.length = hs.length) :
    (((hs.zip bs).filter (fun p => p.1 == k)).map Prod.snd).length =
      hs.count k := by
  induction hs generalizing bs with
  | nil => simp
  | cons a hs ih =>
    cases bs with
    | nil => simp at hlen
    | cons b bs =>
      have hlen' : bs.length = hs.length := by simpa using hlen
      rw [List.zip_cons_cons, List.filter_cons, List.count_cons]
      by_cases ha : a = k
      · simp only [ha, beq_self_eq_true, if_true, List.map_cons, List.length_cons,
          ih bs hlen']
      · have hb : ((a, b).1 == k) = false := by simpa using ha
        simp only [hb, Bool.false_eq_true, if_false, ih bs hlen']
        simp [ha]

theorem CsvToSlice_ok (headers : List String) (dataRows : List (List String))
    (hne : dataRows ≠ [])
    (hlen : ∀ r ∈ dataRows, r.length = headers.length) :
    CsvToSlice (headers :: dataRows) =
      .ok (dataRows.foldl (fun acc row => fillRow acc (headers.zip row))
            (initHeaders headers)) := by
  cases dataRows with
  | nil => exact absurd rfl hne
  | cons d ds =>
    unfold CsvToSlice
    rw [readAll_ok headers (d :: ds) hlen]

theorem flatMap_singleton_eq_map {α β : Type} (f : α → β) (l : List α) :
    l.flatMap (fun a => [f a]) = l.map f := by
  induction l with
  | nil => rfl
  | cons a l ih => simp [List.flatMap_cons, ih]

theorem flatMap_congr_mem {α β : Type} (l : List α) (f g : α → List β)
    (h : ∀ a ∈ l, f a = g a) : l.flatMap f = l.flatMap g := by
  induction l with
  | nil => rfl
  | cons a l ih =>
    rw [List.flatMap_cons, List.flatMap_cons, h a (by simp),
      ih (fun a ha => h a (by simp [ha]))]

theorem length_flatMap_const {α : Type} (l : List α) (f : α → List String) (c : Nat)
    (h : ∀ a ∈ l, (f a).length = c) : (l.flatMap f).length = l.length * c := by
  induction l with
  | nil => simp
  | cons a l ih =>
    rw [List.flatMap_cons, List.length_append, h a (by simp),
      ih (fun a ha => h a (by simp [ha])), List.length_cons]
    ring

/-! ## Claim theorems -/

/-- C1: a CSV input containing a data row with fewer fields than the
header row is rejected with an error (Go csv's `FieldsPerRecord` check);
no `Table` with unequal column lengths is ever produced silently. -/
theorem csvToSlice_rejects_short_rows (headers : List String)
    (rest : List (List String)) (r : List String)
    (hmem : r ∈ rest) (hshort : r.length < headers.length) :
    CsvToSlice (headers :: rest) =
      .error "record on line: wrong number of fields" := by
  have hcf := checkFields_error headers.length rest r hmem (Nat.ne_of_lt hshort)
  simp [CsvToSlice, readAll, hcf, Except.map]

/-- Witness for C1 at the concrete input `a,b / 1`. -/
theorem csvToSlice_rejects_short_rows_witness :
    CsvToSlice [["a", "b"], ["1"]] =
      .error "record on line: wrong number of fields" :=
  csvToSlice_rejects_short_rows ["a", "b"] [["1"]] ["1"]
    (by simp) (by simp)

/-- C4: an input that parses to fewer than two records (empty, or a
header row only) fails with the at-least-one-data-row error and yields
no table. -/
theorem csvToSlice_requires_two_records (rows : List (List String))
    (h : rows.length < 2) :
    CsvToSlice rows = .error "CSV file must contain at least one row of data" := by
  match rows with
  | [] => rfl
  | [r] => simp [CsvToSlice, readAll, checkFields, Except.map]
  | r :: r' :: rs => exact absurd h (by simp)

/-- Witness for C4 at the empty input. -/
theorem csvToSlice_requires_two_records_witness :
    CsvToSlice [] = .error "CSV file must contain at least one row of data" :=
  csvToSlice_requires_two_records [] (by simp)

/-- C2: on well-formed input (unique header names, every data row as wide
as the header, at least one data row), every column's sequence is exactly
the i-th field of each data row in order, so its length is the number of
data rows. -/
theorem csvToSlice_column_contents (headers : List String)
    (dataRows : List (List String)) (hnd : headers.Nodup) (hne : dataRows ≠ [])
    (hlen : ∀ r ∈ dataRows, r.length = headers.length)
    (i : Nat) (hi : i < headers.length) :
    ∃ t, CsvToSlice (headers :: dataRows) = .ok t ∧
      getKey t (headers.get ⟨i, hi⟩) = dataRows.map (fun r => r.getD i "") ∧
      (getKey t (headers.get ⟨i, hi⟩)).length = dataRows.length := by
  have hcol : getKey
      (dataRows.foldl (fun acc row => fillRow acc (headers.zip row))
        (initHeaders headers)) (headers.get ⟨i, hi⟩) =
      dataRows.map (fun r => r.getD i "") := by
    rw [rows_foldl_getKey, initHeaders_getKey _ _ (List.get_mem headers i hi),
      List.nil_append, ← flatMap_singleton_eq_map]
    exact flatMap_congr_mem _ _ _
      (fun r hr => filter_zip_nodup_get headers i hi r hnd (hlen r hr))
  exact ⟨_, CsvToSlice_ok headers dataRows hne hlen, hcol, by rw [hcol]; simp⟩

/-- Witness for C2 at the spec's example table `Name,Age / Alice,30 / Bob,25`,
column 0. -/
theorem csvToSlice_column_contents_witness :
    ∃ t, CsvToSlice [["Name", "Age"], ["Alice", "30"], ["Bob", "25"]] = .ok t ∧
      getKey t ((["Name", "Age"] : List String).get ⟨0, by decide⟩) =
        [["Alice", "30"], ["Bob", "25"]].map (fun r => r.getD 0 "") ∧
      (getKey t ((["Name", "Age"] : List String).get ⟨0, by decide⟩)).length = 2 :=
  csvToSlice_column_contents ["Name", "Age"] [["Alice", "30"], ["Bob", "25"]]
    (by decide) (by decide) (by decide) 0 (by decide)

/-- C3 counterexample: for source header `b,a` the produced table is a Go
map, and the only observable column order — the sorted key order used
whenever the map is JSON-serialized — is `a,b`, not the source header
order `b,a`. -/
theorem csvToSlice_header_order_not_preserved :
    CsvToSlice [["b", "a"], ["1", "2"]] = .ok [("b", ["1"]), ("a", ["2"])] ∧
    marshalKeyOrder [("b", ["1"]), ("a", ["2"])] = ["a", "b"] ∧
    (["a", "b"] : List String) ≠ ["b", "a"] :=
  ⟨rfl, by decide, by decide⟩

/-- C3 amended: on well-formed input the observable (serialized) column
order is the ascending lexicographic order of the header names — header
order itself is preserved only when the header is already sorted, since
the `Table` is an unordered Go map. -/
theorem csvToSlice_marshal_order_sorted (headers : List String)
    (dataRows : List (List String)) (hnd : headers.Nodup) (hne : dataRows ≠ [])
    (hlen : ∀ r ∈ dataRows, r.length = headers.length) :
    ∃ t, CsvToSlice (headers :: dataRows) = .ok t ∧
      marshalKeyOrder t = sortStrings headers := by
  have hkeys : tableKeys
      (dataRows.foldl (fun acc row => fillRow acc (headers.zip row))
        (initHeaders headers)) = headers := by
    rw [rows_foldl_tableKeys dataRows headers (initHeaders headers)
      (fun h hh => initHeaders_mem_tableKeys headers h hh),
      initHeaders_tableKeys_of_nodup headers hnd]
  exact ⟨_, CsvToSlice_ok headers dataRows hne hlen,
    by rw [marshalKeyOrder, hkeys]⟩

/-- Witness for the amended C3 at header `b,a`: the serialized order is
`sortStrings ["b", "a"]`. -/
theorem csvToSlice_marshal_order_sorted_witness :
    ∃ t, CsvToSlice [["b", "a"], ["1", "2"]] = .ok t ∧
      marshalKeyOrder t = sortStrings ["b", "a"] :=
  csvToSlice_marshal_order_sorted ["b", "a"] [["1", "2"]]
    (by decide) (by decide) (by decide)

/-- C10: when a header name occurs at two or more positions, the result
still succeeds and holds a single entry for that name, collecting the
fields of all same-named positions of every data row in order; its length
is the number of data rows times the number of occurrences. -/
theorem csvToSlice_duplicate_headers_merge (headers : List String)
    (dataRows : List (List String)) (k : String)
    (hdup : 2 ≤ headers.count k) (hne : dataRows ≠ [])
    (hlen : ∀ r ∈ dataRows, r.length = headers.length) :
    ∃ t, CsvToSlice (headers :: dataRows) = .ok t ∧
      (tableKeys t).count k = 1 ∧
      getKey t k = dataRows.flatMap
        (fun r => ((headers.zip r).filter (fun p => p.1 == k)).map Prod.snd) ∧
      (getKey t k).length = dataRows.length * headers.count k := by
  have hmem : k ∈ headers := by
    by_contra hk
    rw [List.count_eq_zero_of_not_mem hk] at hdup
    omega
  have hkeys : tableKeys
      (dataRows.foldl (fun acc row => fillRow acc (headers.zip row))
        (initHeaders headers)) = tableKeys (initHeaders headers) :=
    rows_foldl_tableKeys dataRows headers (initHeaders headers)
      (fun h hh => initHeaders_mem_tableKeys headers h hh)
  have hcol : getKey
      (dataRows.foldl (fun acc row => fillRow acc (headers.zip row))
        (initHeaders headers)) k =
      dataRows.flatMap
        (fun r => ((headers.zip r).filter (fun p => p.1 == k)).map Prod.snd) := by
    rw [rows_foldl_getKey, initHeaders_getKey headers k hmem, List.nil_append]
  refine ⟨_, CsvToSlice_ok headers dataRows hne hlen, ?_, hcol, ?_⟩
  · rw [hkeys]
    exact List.count_eq_one_of_mem (initHeaders_tableKeys_nodup headers)
      (initHeaders_mem_tableKeys headers k hmem)
  · rw [hcol]
    exact length_flatMap_const dataRows _ (headers.count k)
      (fun r hr => filter_zip_count headers r k (hlen r hr))

/-- Witness for C10 at header `a,a` with two data rows: the single `a`
column holds all four fields. -/
theorem csvToSlice_duplicate_headers_merge_witness :
    ∃ t, CsvToSlice [["a", "a"], ["1", "2"], ["3", "4"]] = .ok t ∧
      (tableKeys t).count "a" = 1 ∧
      getKey t "a" = [["1", "2"], ["3", "4"]].flatMap
        (fun r => (((["a", "a"] : List String).zip r).filter
          (fun p => p.1 == "a")).map Prod.snd) ∧
      (getKey t "a").length = 2 * 2 :=
  csvToSlice_duplicate_headers_merge ["a", "a"] [["1", "2"], ["3", "4"]] "a"
    (by decide) (by decide) (by decide)

/-- C5: with an empty credential the handler answers with the
missing-credential error. The equation holds uniformly in `doRequest`
(the transport appears on neither side's evaluation), so no request is
ever issued to the remote endpoint. -/
theorem askCredentialStep_empty_token
    (doRequest : HttpRequest → Except String HttpResponse)
    (payload : Inputs) (token : String) (h : token = "") :
    askCredentialStep doRequest payload token =
      .error "HUGGINGFACE_TOKEN is not set in the environment" := by
  subst h
  rfl

/-- Witness for C5: a transport that would report a call is never
consulted. -/
theorem askCredentialStep_empty_token_witness :
    askCredentialStep (fun _ => .error "transport was invoked")
      ⟨[("c", ["v"])], "q"⟩ "" =
      .error "HUGGINGFACE_TOKEN is not set in the environment" :=
  askCredentialStep_empty_token (fun _ => .error "transport was invoked")
    ⟨[("c", ["v"])], "q"⟩ "" rfl

/-- C6: a response whose status is not 200 makes `ConnectAIModel` fail
with the formatted error carrying the numeric code and the status text,
independent of the response body (the body does not occur in the
outcome); and the nil-error outcome occurs only for status 200. -/
theorem connectAIModel_non_success_status
    (doRequest : HttpRequest → Except String HttpResponse)
    (payload : Inputs) (token : String) (resp : HttpResponse)
    (hdo : doRequest (ConnectAIModelRequest payload token) = .ok resp) :
    (resp.statusCode ≠ 200 →
      ConnectAIModel doRequest payload token =
        (zeroResponse,
          some ("failed to get valid response: " ++ toString resp.statusCode ++
            " " ++ resp.status))) ∧
    ((ConnectAIModel doRequest payload token).2 = none →
      resp.statusCode = 200) := by
  constructor
  · intro hcode
    simp [ConnectAIModel, hdo, hcode]
  · intro hnone
    by_cases hcode : resp.statusCode = 200
    · exact hcode
    · exfalso
      simp [ConnectAIModel, hdo, hcode] at hnone

/-- Witness for C6 at a mocked 401 response. -/
theorem connectAIModel_non_success_status_witness :
    ((401 ≠ 200 →
      ConnectAIModel (fun _ => .ok ⟨401, "401 Unauthorized", none⟩)
          ⟨[("c", ["v"])], "q"⟩ "tok" =
        (zeroResponse,
          some ("failed to get valid response: " ++ toString 401 ++
            " " ++ "401 Unauthorized"))) ∧
    ((ConnectAIModel (fun _ => .ok ⟨401, "401 Unauthorized", none⟩)
        ⟨[("c", ["v"])], "q"⟩ "tok").2 = none → 401 = 200)) :=
  connectAIModel_non_success_status
    (fun _ => .ok ⟨401, "401 Unauthorized", none⟩)
    ⟨[("c", ["v"])], "q"⟩ "tok" ⟨401, "401 Unauthorized", none⟩ rfl

/-- C7: on every failure path — transport error, non-200 status, body
that cannot be read or decoded — the returned value component is the
zero `Response`; no error is ever paired with a decoded Answer. -/
theorem connectAIModel_error_zero_response
    (doRequest : HttpRequest → Except String HttpResponse)
    (payload : Inputs) (token : String) (e : String)
    (h : (ConnectAIModel doRequest payload token).2 = some e) :
    (ConnectAIModel doRequest payload token).1 = zeroResponse := by
  cases hdo : doRequest (ConnectAIModelRequest payload token) with
  | error e' => simp [ConnectAIModel, hdo]
  | ok resp =>
    by_cases hc : resp.statusCode = 200
    · cases hdec : decodeResponse resp.body with
      | error e' => simp [ConnectAIModel, hdo, hc, hdec]
      | ok r =>
        exfalso
        simp [ConnectAIModel, hdo, hc, hdec] at h
    · simp [ConnectAIModel, hdo, hc]

/-- Witness for C7 at a 200 response with an unreadable body. -/
theorem connectAIModel_error_zero_response_witness :
    (ConnectAIModel (fun _ => .ok ⟨200, "200 OK", none⟩)
      ⟨[("c", ["v"])], "q"⟩ "tok").1 = zeroResponse :=
  connectAIModel_error_zero_response (fun _ => .ok ⟨200, "200 OK", none⟩)
    ⟨[("c", ["v"])], "q"⟩ "tok" "invalid JSON in response body" rfl

/-- C8: the single request built for every call is a POST to the fixed
inference endpoint, with `Authorization: Bearer <token>` and
`Content-Type: application/json`, whose body is the JSON serialization
`{table, query}` of the payload; and the call's outcome depends on the
transport only through its answer to exactly this request. -/
theorem connectAIModel_request_shape (payload : Inputs) (token : String) :
    ConnectAIModelRequest payload token =
      { method := "POST",
        url := "https://api-inference.huggingface.co/models/google/tapas-base-finetuned-wtq",
        headers := [("Authorization", "Bearer " ++ token),
                    ("Content-Type", "application/json")],
        body := .obj [("table", marshalTable payload.Table),
                      ("query", .str payload.Query)] } ∧
    ∀ dr dr' : HttpRequest → Except String HttpResponse,
      dr (ConnectAIModelRequest payload token) =
        dr' (ConnectAIModelRequest payload token) →
      ConnectAIModel dr payload token = ConnectAIModel dr' payload token := by
  constructor
  · rfl
  · intro dr dr' hagree
    unfold ConnectAIModel
    rw [hagree]

/-- C9 counterexample: a 200 response decoding to one coordinate pair but
two cells is returned as a success — both sequences non-empty, lengths 1
and 2. -/
theorem connectAIModel_parallel_invariant_fails :
    ConnectAIModel
      (fun _ => .ok ⟨200, "200 OK",
        some (.obj [("answer", Json.str "x"),
          ("coordinates", Json.arr [Json.arr [Json.num 0, Json.num 1]]),
          ("cells", Json.arr [Json.str "a", Json.str "b"]),
          ("aggregator", Json.str "NONE")])⟩)
      ⟨[("c", ["v"])], "q"⟩ "tok" =
      ({ Answer := "x", Coordinates := [[0, 1]], Cells := ["a", "b"],
         Aggregator := "NONE" }, none) ∧
    ([[(0 : Int), 1]].length ≠ (["a", "b"] : List String).length) := by
  exact ⟨rfl, by decide⟩

/-- C9 amended: `ConnectAIModel` validates nothing about the decoded
Answer — whenever the transport yields a 200 response whose body decodes
to `r`, the call succeeds with exactly `r`, whether or not `coordinates`
and `cells` have equal lengths; the parallel-sequences invariant holds
only if the provider upholds it. -/
theorem connectAIModel_returns_decoded_unvalidated
    (doRequest : HttpRequest → Except String HttpResponse)
    (payload : Inputs) (token : String) (resp : HttpResponse) (r : Response)
    (hdo : doRequest (ConnectAIModelRequest payload token) = .ok resp)
    (hcode : resp.statusCode = 200)
    (hdec : decodeResponse resp.body = .ok r) :
    ConnectAIModel doRequest payload token = (r, none) := by
  simp [ConnectAIModel, hdo, hcode, hdec]

/-- Witness for the amended C9 at the spec's mocked round trip. -/
theorem connectAIModel_returns_decoded_unvalidated_witness :
    ConnectAIModel
      (fun _ => .ok ⟨200, "200 OK",
        some (.obj [("answer", Json.str "30"),
          ("coordinates", Json.arr [Json.arr [Json.num 0, Json.num 1]]),
          ("cells", Json.arr [Json.str "30"]),
          ("aggregator", Json.str "NONE")])⟩)
      ⟨[("Name", ["Alice", "Bob"]), ("Age", ["30", "25"])],
        "What is the age of Alice?"⟩ "tok" =
      ({ Answer := "30", Coordinates := [[0, 1]], Cells := ["30"],
         Aggregator := "NONE" }, none) :=
  connectAIModel_returns_decoded_unvalidated _ _ "tok" _ _ rfl rfl rfl

end GolangAI
